import Mathlib

/-!
# govat: a shallow embedding of `vat.go`

The Go program fetches VAT rate records over HTTP, keeps the records of the
requested countries and prints them as JSON.  Go values are embedded as
follows.

* A Go `string` is a Lean `String` (a sequence of Unicode scalar values).
* A Go `error` is carried by the text its `Error()` method returns.
* A Go slice is a `List`; the `nil` slice is `[]`.  Where a slice is shared
  with a caller, the shared backing array is passed along explicitly.
* A call that ends in a run-time panic is the value `Outcome.panic`.
* Standard-library functions the program calls (`url.Parse`,
  `json.MarshalIndent`, `unicode.ToUpper`, ...) are parameters of the
  definitions that use them, except for the small ones modelled below
  (`strings.Join`, `strings.Split` on `","`, `fmt.Errorf` with one verb).
-/

namespace Govat

/-! ## Data model -/

/-- A Go `float64`, carried as its 64-bit pattern.  No arithmetic on it is
modelled; the program only stores and prints these values. -/
structure Float64 where
  bits : Nat
  deriving DecidableEq, Repr

/-- The anonymous struct `Rates` inside a period of `VatRate`. -/
structure Rates where
  SuperReduced : Float64
  Reduced : Float64
  Standard : Float64
  deriving DecidableEq, Repr

/-- The anonymous struct of the `Periods` slice of `VatRate`. -/
structure Period where
  EffectiveFrom : String
  Rates : Rates
  deriving DecidableEq, Repr

/-- The Go struct `VatRate`. -/
structure VatRate where
  Name : String
  Code : String
  CountryCode : String
  Periods : List Period
  deriving DecidableEq, Repr

/-- A Go `error` value, identified with its message. -/
abbrev GoError := String

/-- The Go type `countriesCodes`, a `[]string`. -/
abbrev countriesCodes := List String

/-- The Go interface `VatClient`: its one method `fetch(url)` returns a record
list and an error (`none` is the `nil` error). -/
abbrev VatClient := String → List VatRate × Option GoError

/-! ## Library functions modelled directly -/

/-- Go `strings.Join(elems, sep)`: the elements with `sep` between
neighbours; the empty string for no element. -/
def Join : List String → String → String
  | [], _ => ""
  | [a], _ => a
  | a :: b :: rest, sep => a ++ sep ++ Join (b :: rest) sep

/-- The error of `fmt.Errorf("countries with codes: %s not found", s)` for a
string operand `s`: the verb `%s` is replaced by `s` as it is. -/
def notFoundError (s : String) : GoError :=
  "countries with codes: " ++ s ++ " not found"

/-! ## `fetchCountriesVat` -/

/-- The inner loop `for i, countryCode := range CountryCodes` with its `break`:
the index of the first code equal to `cc`, counting from `i`, or `none` when the
loop runs to its end without a match. -/
def scanCodes (cc : String) : List String → Nat → Option Nat
  | [], _ => none
  | countryCode :: rest, i =>
    if cc = countryCode then some i else scanCodes cc rest (i + 1)

/-- The tuple assignment
`CountryCodes[len-1], CountryCodes[i] = CountryCodes[i], CountryCodes[len-1]`
on the backing array: both right-hand sides are read first, then the two
elements are stored, left one first.  `len` is `len(CountryCodes)`. -/
def swapLast (backing : List String) (len i : Nat) : List String :=
  let atI := backing.getD i ""
  let atLast := backing.getD (len - 1) ""
  (backing.set (len - 1) atI).set i atLast

/-- The variables of `fetchCountriesVat` the outer loop changes: `result`, the
array behind `CountryCodes` (which the caller's slice also points to) and the
length of the function's own slice `CountryCodes`. -/
structure LoopState where
  result : List VatRate
  backing : List String
  len : Nat
  deriving DecidableEq, Repr

/-- The slice `CountryCodes` as the function sees it: the first `len` elements
of the backing array. -/
def LoopState.codes (st : LoopState) : List String :=
  st.backing.take st.len

/-- One pass of the outer loop `for _, vatRate := range vatRates`. -/
def loopStep (st : LoopState) (vatRate : VatRate) : LoopState :=
  match scanCodes vatRate.CountryCode st.codes 0 with
  | none => st
  | some i =>
    { result := st.result ++ [vatRate]
      backing := swapLast st.backing st.len i
      len := st.len - 1 }

/-- The outer loop of `fetchCountriesVat` over all fetched records. -/
def filterLoop (vatRates : List VatRate) (CountryCodes : countriesCodes) : LoopState :=
  vatRates.foldl loopStep { result := [], backing := CountryCodes, len := CountryCodes.length }

/-- What a call of `fetchCountriesVat` leaves behind: the two returned values
and the contents of the caller's slice of codes after the call (the caller's
slice header, and so its length, is passed by value and is not changed). -/
structure FetchResult where
  rates : List VatRate
  err : Option GoError
  callerCodes : List String
  deriving DecidableEq, Repr

/-- The Go function `fetchCountriesVat(client, CountryCodes)`. -/
def fetchCountriesVat (client : VatClient) (CountryCodes : countriesCodes) : FetchResult :=
  match client "/" with
  | (_, some err) => { rates := [], err := some err, callerCodes := CountryCodes }
  | (vatRates, none) =>
    let st := filterLoop vatRates CountryCodes
    if st.result.length = 0 then
      { rates := [], err := some (notFoundError (Join st.codes ",")), callerCodes := st.backing }
    else
      { rates := st.result, err := none, callerCodes := st.backing }

/-- The test double `FakeVatClientER` of the test file with no expected error:
`fetch` returns the stored records. -/
def fakeClient (records : List VatRate) : VatClient :=
  fun _ => (records, none)

/-- The record for Spain of the test fixture, without its periods. -/
def rES : VatRate := ⟨"Spain", "ES", "ES", []⟩

/-- The record for Bulgaria of the test fixture, without its periods. -/
def rBG : VatRate := ⟨"Bulgaria", "BG", "BG", []⟩

/-! ## Reference functions the loop is compared with -/

/-- The loop of `fetchCountriesVat` without its array: the codes still wanted
are a list, a record whose code is wanted is collected and one occurrence of its
code is dropped.  Returns the collected records and the codes left. -/
def collect (wanted : List String) : List VatRate → List VatRate × List String
  | [] => ([], wanted)
  | r :: rest =>
    if r.CountryCode ∈ wanted then
      let p := collect (wanted.erase r.CountryCode) rest
      (r :: p.1, p.2)
    else collect wanted rest

/-- The first-match filter as the specification words it: going through the
records in order, with `earlier` the records already passed, a record is kept
when its `CountryCode` is one of `codes` and no earlier record has the same
`CountryCode`. -/
def firstMatchFrom (codes : List String) : List VatRate → List VatRate → List VatRate
  | _, [] => []
  | earlier, r :: rest =>
    if r.CountryCode ∈ codes ∧ ∀ e ∈ earlier, e.CountryCode ≠ r.CountryCode then
      r :: firstMatchFrom codes (earlier ++ [r]) rest
    else firstMatchFrom codes (earlier ++ [r]) rest

/-- The first-match filter over a whole record list. -/
def firstMatchFilter (codes : List String) (records : List VatRate) : List VatRate :=
  firstMatchFrom codes [] records

/-! ## The `countries` flag -/

/-- Go `unicode.ToUpper(r)`: the ASCII letters `a`..`z` are moved to `A`..`Z`,
other ASCII runes are returned as they are, and a rune above `MaxASCII` is
looked up in the Unicode case tables, the parameter `table`. -/
def unicodeToUpper (table : Char → Char) (r : Char) : Char :=
  if r.toNat ≤ 127 then
    if 97 ≤ r.toNat ∧ r.toNat ≤ 122 then Char.ofNat (r.toNat - 32) else r
  else table r

/-- Go `strings.ToUpper(s)` on a string of valid UTF-8: every rune is replaced
by its `unicode.ToUpper`. -/
def ToUpper (table : Char → Char) (s : String) : String :=
  String.mk (s.data.map (unicodeToUpper table))

/-- The segments of a rune sequence between its commas; a sequence with `n`
commas has `n + 1` segments, empty ones included. -/
def splitComma : List Char → List (List Char)
  | [] => [[]]
  | c :: rest =>
    if c = ',' then [] :: splitComma rest
    else
      match splitComma rest with
      | [] => [[c]]
      | seg :: segs => (c :: seg) :: segs

/-- Go `strings.Split(s, ",")`. -/
def Split (s : String) : List String :=
  (splitComma s.data).map String.mk

/-- The method `String` of `countriesCodes`. -/
def countriesCodes_String (i : countriesCodes) : String :=
  Join i ","

/-- The method `Set(value)` of `countriesCodes`: the new contents of the receiver
and the returned error, which is always `nil`. -/
def countriesCodes_Set (table : Char → Char) (_i : countriesCodes) (value : String) :
    countriesCodes × Option GoError :=
  let values := Split (ToUpper table value)
  (values, none)

/-- The text of a flag argument after its one or two leading dashes, split at
the first `=` that is not its first rune: the flag name and, when there is such
a `=`, the value after it (the loop over `name` in `FlagSet.parseOne`). -/
def splitNameValue : List Char → List Char × Option (List Char)
  | [] => ([], none)
  | c :: rest =>
    match rest.span (fun x => x ≠ '=') with
    | (pre, []) => (c :: pre, none)
    | (pre, _ :: value) => (c :: pre, some value)

/-- Go `FlagSet.Parse` for the flag set of `getCountries`: one flag, named
`countries`, that is not a boolean flag, with error handling `ContinueOnError`.
`countries` is the variable the flag is bound to; the result is its value when
`Parse` returns (the error `Parse` returns is dropped by `getCountries`). -/
def parseFlags (table : Char → Char) (countries : countriesCodes) :
    List String → countriesCodes
  | [] => countries
  | s :: args =>
    match s.data with
    | '-' :: '-' :: [] => countries
    | '-' :: c :: rest =>
      let name := if c = '-' then rest else c :: rest
      match name with
      | [] => countries
      | '-' :: _ => countries
      | '=' :: _ => countries
      | _ =>
        match splitNameValue name with
        | (flagName, some value) =>
          if flagName = "countries".data then
            parseFlags table (countriesCodes_Set table countries (String.mk value)).1 args
          else countries
        | (flagName, none) =>
          if flagName = "countries".data then
            match args with
            | [] => countries
            | value :: args2 =>
              parseFlags table (countriesCodes_Set table countries value).1 args2
          else countries
    | _ => countries

/-- The Go function `getCountries(args)`. -/
def getCountries (table : Char → Char) (args : List String) : countriesCodes :=
  parseFlags table [] args

/-! ## The HTTP client -/

/-- The result of a Go call that may end in a run-time panic. -/
inductive Outcome (α : Type) where
  | ok (a : α)
  | panic
  deriving DecidableEq, Repr

/-- The Go struct `url.URL`, with the fields the program's calls depend on
named and the others kept together in `rest`. -/
structure URL where
  Scheme : String
  Host : String
  Path : String
  rest : String
  deriving DecidableEq, Repr

/-- An `*http.Request` as built by `http.NewRequest(method, url, nil)`. -/
structure Request where
  Method : String
  URL : String
  deriving DecidableEq, Repr

/-- The body of an HTTP response, an `io.ReadCloser`: its content and whether
it has been read by a decoder and whether `Close` has been called on it. -/
structure Body where
  content : String
  read : Bool
  closed : Bool
  deriving DecidableEq, Repr

/-- The fields of `http.Response` the program uses. -/
structure Response where
  StatusCode : Int
  Body : Body
  deriving DecidableEq, Repr

/-- The Go struct `VatRates`, the decoded envelope.  `Version` is an
`interface{}`, carried here as the text of the decoded JSON value. -/
structure VatRates where
  Details : String
  Version : Option String
  Rates : List VatRate
  deriving DecidableEq, Repr

/-- The Go interface `HttpClient`: `Do(req)` returns a response pointer and an
error, either of which may be `nil`; `req` is `nil` when `http.NewRequest`
failed. -/
abbrev HttpClient := Option Request → Option Response × Option GoError

/-- The standard-library functions `Client.fetch` and `realmain` call, as
parameters: `url.Parse`; `(*URL).ResolveReference` on a non-nil base for a
reference without a scheme, and for a reference with a scheme (where the base
is not looked at); `(*URL).String`; `http.NewRequest`; the JSON decoder, which
fills the envelope from the body text; `http.DefaultClient`;
`json.MarshalIndent` with prefix `""` and indent of four spaces, for one record
and for a record list; and the text `fmt` prints for an error under the verb
`%#v`. -/
structure Lib where
  urlParse : String → Except GoError URL
  resolveRelative : URL → URL → URL
  resolveAbsolute : URL → URL
  urlString : URL → String
  newRequest : String → String → Option Request
  decode : String → VatRates → VatRates
  defaultClient : HttpClient
  marshalIndentOne : VatRate → String
  marshalIndentAll : List VatRate → String
  goSyntax : GoError → String

/-- The Go struct `Config`; `Client` is `none` for the `nil` interface. -/
structure Config where
  baseURL : String
  UserAgent : String
  Client : Option HttpClient

/-- The Go struct `Client`; `BaseURL` is `none` for the `nil` pointer. -/
structure Client where
  client : HttpClient
  BaseURL : Option URL

/-- The Go function `NewClient(config)`.  The error of `url.Parse` is dropped;
on an error `url.Parse` returns the `nil` URL, which is stored as `BaseURL`. -/
def NewClient (lib : Lib) (config : Config) : Client :=
  let baseURL : Option URL :=
    match lib.urlParse config.baseURL with
    | .ok u => some u
    | .error _ => none
  let httpClient : HttpClient :=
    match config.Client with
    | none => lib.defaultClient
    | some c => c
  { client := httpClient, BaseURL := baseURL }

/-- Go `(*URL).ResolveReference(ref)` on a receiver that may be `nil`.  Its
first statements are `url := *ref; if ref.Scheme == "" { url.Scheme = u.Scheme }`,
so a `nil` receiver is dereferenced, and the call panics, exactly when the
reference has no scheme; a reference with a scheme is resolved without looking
at the receiver. -/
def ResolveReference (lib : Lib) (u : Option URL) (ref : URL) : Outcome URL :=
  if ref.Scheme = "" then
    match u with
    | none => Outcome.panic
    | some base => Outcome.ok (lib.resolveRelative base ref)
  else Outcome.ok (lib.resolveAbsolute ref)

/-- The error of `fmt.Errorf("non valid response. Code: %d", code)`: the verb
`%d` is replaced by the decimal digits of the integer. -/
def statusError (code : Int) : GoError :=
  "non valid response. Code: " ++ toString code

/-- What a call of `doRequest` leaves behind: the returned error, the value
behind the pointer `into`, and the response body as it is when the call
returns (`none` when `Do` returned no response). -/
structure RequestResult where
  err : Option GoError
  into : VatRates
  body : Option Body
  deriving DecidableEq, Repr

/-- The Go method `Client.doRequest(req, into)`.  The deferred
`resp.Body.Close()` is registered by the last statement before `return err`, so
it runs on that return only; the two earlier `return`s leave the function with
no deferred call.  A `nil` response with a `nil` error is dereferenced by
`resp.StatusCode`. -/
def doRequest (lib : Lib) (client : Client) (req : Option Request) (into : VatRates) :
    Outcome RequestResult :=
  match client.client req with
  | (resp, some err) =>
    Outcome.ok { err := some err, into := into, body := resp.map (fun r => r.Body) }
  | (none, none) => Outcome.panic
  | (some resp, none) =>
    if resp.StatusCode ≠ 200 then
      Outcome.ok { err := some (statusError resp.StatusCode), into := into,
                   body := some resp.Body }
    else
      let decoded := lib.decode resp.Body.content into
      let bodyRead : Body := { resp.Body with read := true }
      let bodyClosed : Body := { bodyRead with closed := true }
      Outcome.ok { err := none, into := decoded, body := some bodyClosed }

/-- What a call of `Client.fetch` leaves behind: the two returned values and
the response body as it is when the call returns. -/
structure ClientFetchResult where
  rates : List VatRate
  err : Option GoError
  body : Option Body
  deriving DecidableEq, Repr

/-- The Go method `Client.fetch(urlStr)`. -/
def Client.fetch (lib : Lib) (client : Client) (urlStr : String) :
    Outcome ClientFetchResult :=
  let vatRates : VatRates := { Details := "", Version := none, Rates := [] }
  match lib.urlParse urlStr with
  | .error err => Outcome.ok { rates := [], err := some err, body := none }
  | .ok rel =>
    match ResolveReference lib client.BaseURL rel with
    | Outcome.panic => Outcome.panic
    | Outcome.ok url =>
      let resolvedURL := lib.urlString url
      let req := lib.newRequest "GET" resolvedURL
      match doRequest lib client req vatRates with
      | Outcome.panic => Outcome.panic
      | Outcome.ok r =>
        match r.err with
        | some err => Outcome.ok { rates := [], err := some err, body := r.body }
        | none => Outcome.ok { rates := r.into.Rates, err := none, body := r.body }

/-! ## The entry point -/

/-- The constant `userAgent`, `"govat/" + libraryVersion`. -/
def userAgent : String := "govat/" ++ "0.0.1"

/-- The Go function `getUrl()`; `env` is the result of looking up `SERVER_URL`,
`none` when the variable is not set. -/
def getUrl (env : Option String) : String :=
  match env with
  | none => "https://jsonvat.com/"
  | some str => str

/-- Go `fmt.Fprintf(w, format)` with no operand, on the part of the format
language made of plain text and of verbs `%`, flags (`#`, `0`, `+`, `-`,
space), verb rune: plain text is copied, `%%` prints `%`, any other verb finds
no operand and prints `%!` verb `(MISSING)`, and a format that ends inside a
verb prints `%!(NOVERB)`.  A width, a precision or an argument index (a digit
`1`..`9`, `.`, `*` or `[` after the flags) is outside this part: the result is
`none`.  `inVerb` says whether a `%` has been read and its verb rune has not. -/
def fprintfNoArgs : Bool → List Char → Option (List Char)
  | false, [] => some []
  | true, [] => some "%!(NOVERB)".data
  | false, c :: rest =>
    if c = '%' then fprintfNoArgs true rest
    else (fprintfNoArgs false rest).map (fun out => c :: out)
  | true, c :: rest =>
    if c = '#' ∨ c = '0' ∨ c = '+' ∨ c = '-' ∨ c = ' ' then fprintfNoArgs true rest
    else if c = '[' ∨ c = '*' ∨ c = '.' ∨ (49 ≤ c.toNat ∧ c.toNat ≤ 57) then none
    else if c = '%' then (fprintfNoArgs false rest).map (fun out => '%' :: out)
    else (fprintfNoArgs false rest).map (fun out => "%!".data ++ c :: "(MISSING)".data ++ out)

/-- The text `fmt.Fprintf(os.Stdout, format)` writes, `none` when the format
is outside the modelled part of the format language. -/
def Fprintf (format : String) : Option String :=
  (fprintfNoArgs false format.data).map String.mk

/-- The variable `jsonStr` of `realmain`: the serialization of the record
itself when `len(spRate) == 1`, of the whole list otherwise (the error of
`json.MarshalIndent` is dropped). -/
def jsonStr (lib : Lib) (spRate : List VatRate) : String :=
  match spRate with
  | [one] => lib.marshalIndentOne one
  | _ => lib.marshalIndentAll spRate

/-- The last statement of `realmain` before `return 0`, the call
`fmt.Fprintf(os.Stdout, string(jsonStr))`: what is written to standard
output. -/
def writeRates (lib : Lib) (spRate : List VatRate) : Option String :=
  Fprintf (jsonStr lib spRate)

/-- What a run of `realmain` that returns leaves behind: the returned exit
code, what `realmain` wrote to standard output (`none` when the format handed
to `Fprintf` is outside the modelled part) and the diagnostic `realmain` itself
wrote to standard error (what the flag package prints there on a malformed
argument is not modelled). -/
structure MainResult where
  code : Int
  stdout : Option String
  stderr : String
  deriving DecidableEq, Repr

/-- The Go function `realmain()`.  Its inputs are the lookup of `SERVER_URL`
and `os.Args[1:]`.  `fetchCountriesVat` begins with `client.fetch("/")`, so a
panic of that call is the panic of the run, and otherwise `fetchCountriesVat`
goes on with the pair the call returned. -/
def realmain (lib : Lib) (table : Char → Char) (serverURL : Option String)
    (args : List String) : Outcome MainResult :=
  let vatConfig : Config :=
    { baseURL := getUrl serverURL, UserAgent := userAgent, Client := none }
  let vatClient := NewClient lib vatConfig
  match Client.fetch lib vatClient "/" with
  | Outcome.panic => Outcome.panic
  | Outcome.ok fetched =>
    let r := fetchCountriesVat (fun _ => (fetched.rates, fetched.err)) (getCountries table args)
    match r.err with
    | some err => Outcome.ok { code := 1, stdout := some "", stderr := lib.goSyntax err }
    | none => Outcome.ok { code := 0, stdout := writeRates lib r.rates, stderr := "" }

/-- A record whose name has a percent sign, as a server may send it. -/
def rPercent : VatRate := ⟨"100%", "ES", "ES", []⟩

/-- The text of `json.MarshalIndent(rPercent, "", "    ")`: the fields in the
order of the struct, under their JSON names, the nil slice as `null`. -/
def rPercentJSON : String :=
  "\x7b\n    \"name\": \"100%\",\n    \"code\": \"ES\",\n    \"country_code\": \"ES\",\n    \"periods\": null\n\x7d"

/-- A stand-in for the library: `url.Parse` rejects a text that starts with a
colon with the error the test `TestVatInvalidURL` expects and takes any other
text as a path without a scheme; every response of the server has the given
status and body; the decoder yields the given records. -/
def toyLib (status : Int) (body : String) (records : List VatRate) : Lib :=
  { urlParse := fun s =>
      match s.data with
      | ':' :: _ => .error ("parse \"" ++ s ++ "\": missing protocol scheme")
      | _ => .ok { Scheme := "", Host := "", Path := s, rest := "" }
    resolveRelative := fun base ref => { base with Path := ref.Path }
    resolveAbsolute := fun ref => ref
    urlString := fun u => u.Scheme ++ u.Host ++ u.Path
    newRequest := fun m u => some { Method := m, URL := u }
    decode := fun _ into => { into with Rates := records }
    defaultClient := fun _ =>
      (some { StatusCode := status, Body := { content := body, read := false, closed := false } },
       none)
    marshalIndentOne := fun r => if r = rPercent then rPercentJSON else r.Name
    marshalIndentAll := fun rs => String.join (rs.map (fun r => r.Name))
    goSyntax := fun e => e }

/-- The library stand-in for the server of `TestVatGetHTTPError`, which
answers 500 with the body `server broken :(`. -/
def brokenLib : Lib := toyLib 500 "server broken :(" [rES]

/-- The response of the server of `TestVatGetHTTPError`, as `Do` returns it. -/
def brokenResponse : Response :=
  { StatusCode := 500, Body := { content := "server broken :(", read := false, closed := false } }

/-- A client with a base URL, talking to the server of `TestVatGetHTTPError`. -/
def brokenClient : Client :=
  { client := brokenLib.defaultClient, BaseURL := some { Scheme := "", Host := "", Path := "http://127.0.0.1/", rest := "" } }

/-- An HTTP client that tells requests apart: it answers a `GET` request with
the response of the server of `TestVatGetHTTPError` and anything else, the nil
request included, with status 200 and an empty body. -/
def getOnlyBrokenDo : HttpClient := fun req =>
  match req with
  | some r =>
    if r.Method = "GET" then (some brokenResponse, none)
    else (some { StatusCode := 200, Body := { content := "", read := false, closed := false } }, none)
  | none => (some { StatusCode := 200, Body := { content := "", read := false, closed := false } }, none)

/-- A client with a base URL whose HTTP client is `getOnlyBrokenDo`. -/
def getOnlyBrokenClient : Client :=
  { client := getOnlyBrokenDo, BaseURL := some { Scheme := "", Host := "", Path := "http://127.0.0.1/", rest := "" } }

/-- The zero value of `VatRates`, as `var vatRates VatRates` declares it. -/
def zeroVatRates : VatRates := { Details := "", Version := none, Rates := [] }

/-- What `realmain` writes for `rPercent` alone: the text of `rPercentJSON`
with the percent sign and the quote after it read as a verb without operand. -/
def rPercentPrinted : String :=
  "\x7b\n    \"name\": \"100%!\"(MISSING),\n    \"code\": \"ES\",\n    \"country_code\": \"ES\",\n    \"periods\": null\n\x7d"

/-! ## Lemmas on the loop -/

theorem scanCodes_none (cc : String) (l : List String) (k : Nat) :
    scanCodes cc l k = none ↔ cc ∉ l := by
  induction l generalizing k with
  | nil => simp [scanCodes]
  | cons c cs ih =>
    unfold scanCodes
    by_cases h : cc = c
    · simp [h]
    · simp [h, ih]

theorem scanCodes_some (cc : String) (l : List String) (k j : Nat)
    (h : scanCodes cc l k = some j) :
    ∃ i, j = k + i ∧ i < l.length ∧ l.getD i "" = cc ∧ l.eraseIdx i = l.erase cc := by
  induction l generalizing k with
  | nil => simp [scanCodes] at h
  | cons c cs ih =>
    unfold scanCodes at h
    by_cases hc : cc = c
    · simp [hc] at h
      refine ⟨0, by omega, by simp, by simp [hc], by simp [hc]⟩
    · simp [hc] at h
      obtain ⟨i, hj, hi, hg, he⟩ := ih (k + 1) h
      refine ⟨i + 1, by omega, by simp; omega, by simpa using hg, ?_⟩
      have hne : ¬ (c = cc) := fun e => hc e.symm
      simp [List.erase_cons, hne, he]

theorem set_perm_cons_eraseIdx (u : List String) (i : Nat) (x : String) (h : i < u.length) :
    (u.set i x).Perm (x :: u.eraseIdx i) := by
  induction u generalizing i with
  | nil => simp at h
  | cons a as ih =>
    cases i with
    | zero => simp
    | succ n =>
      simp only [List.set_cons_succ, List.eraseIdx_cons_succ]
      have h1 : n < as.length := by simpa using h
      exact ((ih n h1).cons a).trans (List.Perm.swap x a _)

theorem set_getD_self (l : List String) (i : Nat) (h : i < l.length) :
    l.set i (l.getD i "") = l := by
  induction l generalizing i with
  | nil => simp at h
  | cons a as ih =>
    cases i with
    | zero => simp
    | succ n =>
      have h1 : n < as.length := by simpa using h
      simpa using ih n h1

theorem swapLast_self (b : List String) (len : Nat) (h : len - 1 < b.length) :
    swapLast b len (len - 1) = b := by
  unfold swapLast
  simp only []
  rw [List.set_set, set_getD_self b _ h]

theorem swapLast_length (b : List String) (len i : Nat) :
    (swapLast b len i).length = b.length := by
  simp [swapLast]

theorem swapLast_take (b : List String) (len i : Nat) (hlen : len ≤ b.length) (hi : i < len) :
    ((swapLast b len i).take (len - 1)).Perm ((b.take len).eraseIdx i) := by
  have hsplit : b.take len = b.take (len - 1) ++ [b.getD (len - 1) ""] := by
    have h1 : len - 1 < b.length := by omega
    have h2 : len = (len - 1) + 1 := by omega
    conv => lhs; rw [h2]
    rw [List.take_succ]
    simp [List.getD_eq_getElem?_getD, h1]
  by_cases hlast : i = len - 1
  · subst hlast
    have hself : swapLast b len (len - 1) = b := swapLast_self b len (by omega)
    rw [hself, hsplit]
    have hl : (b.take (len - 1)).length = len - 1 := by simp; omega
    rw [List.eraseIdx_append_of_length_le (by omega)]
    simp [hl]
  · have hi1 : i < len - 1 := by omega
    have hl : (b.take (len - 1)).length = len - 1 := by simp; omega
    have e1 : (swapLast b len i).take (len - 1)
        = (b.take (len - 1)).set i (b.getD (len - 1) "") := by
      unfold swapLast
      simp only []
      rw [List.set_take, List.set_take, List.set_eq_of_length_le (a := b.getD i "") (Nat.le_of_eq hl)]
    rw [e1, hsplit, List.eraseIdx_append_of_lt_length (by rw [hl]; exact hi1)]
    exact (set_perm_cons_eraseIdx _ i _ (by rw [hl]; exact hi1)).trans
      (List.perm_append_singleton _ _).symm

theorem swapLast_drop (b : List String) (len i : Nat) (hlen : len ≤ b.length) (hi : i < len) :
    (swapLast b len i).drop (len - 1) = (b.take len).getD i "" :: b.drop len := by
  have h1 : len - 1 < b.length := by omega
  have hg : (b.take len).getD i "" = b.getD i "" := by
    simp [List.getD_eq_getElem?_getD, List.getElem?_take, hi]
  rw [hg]
  by_cases hlast : i = len - 1
  · subst hlast
    rw [swapLast_self b len h1, List.drop_eq_getElem_cons h1]
    congr 1
    · simp [List.getD_eq_getElem?_getD, h1]
    · congr 1
      omega
  · have hi1 : i < len - 1 := by omega
    unfold swapLast
    simp only []
    rw [List.drop_set, if_pos hi1, List.drop_set, if_neg (Nat.lt_irrefl _)]
    rw [List.drop_eq_getElem_cons h1]
    simp only [Nat.sub_self, List.set_cons_zero]
    congr 2
    omega

theorem loopStep_miss (st : LoopState) (r : VatRate) (h : r.CountryCode ∉ st.codes) :
    loopStep st r = st := by
  unfold loopStep
  rw [(scanCodes_none _ _ 0).2 h]

theorem loopStep_hit (st : LoopState) (r : VatRate) (hlen : st.len ≤ st.backing.length)
    (h : r.CountryCode ∈ st.codes) :
    (loopStep st r).result = st.result ++ [r] ∧
    (loopStep st r).len + 1 = st.len ∧
    (loopStep st r).backing.length = st.backing.length ∧
    (loopStep st r).codes.Perm (st.codes.erase r.CountryCode) ∧
    (loopStep st r).backing.drop (loopStep st r).len
      = r.CountryCode :: st.backing.drop st.len := by
  cases hs : scanCodes r.CountryCode st.codes 0 with
  | none => exact absurd h ((scanCodes_none _ _ 0).1 hs)
  | some j =>
    obtain ⟨i, hj, hi, hg, he⟩ := scanCodes_some _ _ _ _ hs
    have hji : j = i := by omega
    subst hji
    have hcl : st.codes.length = st.len := by
      simp [LoopState.codes, hlen]
    have hi2 : j < st.len := by omega
    have hstep : loopStep st r =
        { result := st.result ++ [r], backing := swapLast st.backing st.len j,
          len := st.len - 1 } := by
      unfold loopStep
      rw [hs]
    rw [hstep]
    refine ⟨rfl, by simp; omega, by simp [swapLast_length], ?_, ?_⟩
    · have := swapLast_take st.backing st.len j hlen hi2
      simp only [LoopState.codes] at he hg ⊢
      rw [← he]
      exact this
    · have := swapLast_drop st.backing st.len j hlen hi2
      simp only [LoopState.codes] at hg
      rw [hg] at this
      exact this

theorem foldl_loopStep_miss (rs : List VatRate) (st : LoopState)
    (h : ∀ r ∈ rs, r.CountryCode ∉ st.codes) : rs.foldl loopStep st = st := by
  induction rs with
  | nil => rfl
  | cons r rest ih =>
    rw [List.foldl_cons, loopStep_miss st r (h r (by simp))]
    exact ih (fun x hx => h x (by simp [hx]))

theorem foldl_loopStep_collect (rs : List VatRate) (st : LoopState) (w : List String)
    (hlen : st.len ≤ st.backing.length) (hw : st.codes.Perm w) :
    (rs.foldl loopStep st).result = st.result ++ (collect w rs).1 ∧
    (rs.foldl loopStep st).codes.Perm (collect w rs).2 ∧
    (rs.foldl loopStep st).len + (collect w rs).1.length = st.len ∧
    (rs.foldl loopStep st).backing.length = st.backing.length ∧
    (rs.foldl loopStep st).backing.drop (rs.foldl loopStep st).len
      = ((collect w rs).1.map VatRate.CountryCode).reverse ++ st.backing.drop st.len := by
  induction rs generalizing st w with
  | nil => simp [collect, hw]
  | cons r rest ih =>
    rw [List.foldl_cons]
    by_cases hm : r.CountryCode ∈ w
    · have hm2 : r.CountryCode ∈ st.codes := hw.mem_iff.2 hm
      obtain ⟨h1, h2, h3, h4, h5⟩ := loopStep_hit st r hlen hm2
      have hlen2 : (loopStep st r).len ≤ (loopStep st r).backing.length := by omega
      have hw2 : (loopStep st r).codes.Perm (w.erase r.CountryCode) :=
        h4.trans (hw.erase _)
      obtain ⟨k1, k2, k3, k4, k5⟩ := ih (loopStep st r) (w.erase r.CountryCode) hlen2 hw2
      simp only [collect, if_pos hm]
      refine ⟨by rw [k1, h1]; simp, k2, by simp; omega, by omega, ?_⟩
      rw [k5, h5]
      simp
    · have hm2 : r.CountryCode ∉ st.codes := fun h => hm (hw.mem_iff.1 h)
      rw [loopStep_miss st r hm2]
      simp only [collect, if_neg hm]
      exact ih st w hlen hw

theorem collect_sublist (w : List String) (rs : List VatRate) :
    (collect w rs).1.Sublist rs := by
  induction rs generalizing w with
  | nil => simp [collect]
  | cons r rest ih =>
    unfold collect
    split
    · exact (ih _).cons₂ r
    · exact (ih _).cons r

theorem collect_mem (w : List String) (rs : List VatRate) :
    ∀ r ∈ (collect w rs).1, r.CountryCode ∈ w := by
  induction rs generalizing w with
  | nil => simp [collect]
  | cons r rest ih =>
    unfold collect
    split
    · rename_i hm
      intro x hx
      rcases List.mem_cons.1 hx with rfl | hx
      · exact hm
      · exact List.mem_of_mem_erase (ih _ x hx)
    · exact ih w

theorem collect_eq_nil (w : List String) (rs : List VatRate) :
    (collect w rs).1 = [] ↔ ∀ r ∈ rs, r.CountryCode ∉ w := by
  induction rs generalizing w with
  | nil => simp [collect]
  | cons r rest ih =>
    unfold collect
    split
    · rename_i hm
      simp only [List.mem_cons, forall_eq_or_imp]
      constructor
      · intro h
        exact absurd h (by simp)
      · intro h
        exact absurd hm h.1
    · rename_i hm
      simp only [List.mem_cons, forall_eq_or_imp]
      rw [ih w]
      exact ⟨fun h => ⟨hm, h⟩, fun h => h.2⟩

theorem collect_firstMatch (codes w : List String) (earlier rs : List VatRate)
    (hnd : w.Nodup)
    (hw : ∀ c, c ∈ w ↔ c ∈ codes ∧ ∀ e ∈ earlier, e.CountryCode ≠ c) :
    (collect w rs).1 = firstMatchFrom codes earlier rs := by
  induction rs generalizing w earlier with
  | nil => simp [collect, firstMatchFrom]
  | cons r rest ih =>
    unfold collect firstMatchFrom
    have hnext : ∀ w2 : List String, w2.Nodup →
        (∀ c, c ∈ w2 ↔ c ∈ w ∧ c ≠ r.CountryCode) →
        ∀ c, c ∈ w2 ↔ c ∈ codes ∧ ∀ e ∈ earlier ++ [r], e.CountryCode ≠ c := by
      intro w2 _ h2 c
      rw [h2 c, hw c]
      simp only [List.mem_append, List.mem_singleton]
      constructor
      · rintro ⟨⟨h1, h3⟩, h4⟩
        refine ⟨h1, ?_⟩
        rintro e (he | rfl)
        · exact h3 e he
        · exact fun h => h4 h.symm
      · rintro ⟨h1, h3⟩
        exact ⟨⟨h1, fun e he => h3 e (Or.inl he)⟩, fun h => h3 r (Or.inr rfl) h.symm⟩
    by_cases hm : r.CountryCode ∈ w
    · have hc : r.CountryCode ∈ codes ∧ ∀ e ∈ earlier, e.CountryCode ≠ r.CountryCode :=
        (hw _).1 hm
      rw [if_pos hm, if_pos hc]
      have := ih (w.erase r.CountryCode) (earlier ++ [r]) (hnd.erase _)
        (hnext _ (hnd.erase _) (fun c => by rw [hnd.mem_erase_iff]; exact and_comm))
      simp [this]
    · have hc : ¬ (r.CountryCode ∈ codes ∧ ∀ e ∈ earlier, e.CountryCode ≠ r.CountryCode) :=
        fun h => hm ((hw _).2 h)
      rw [if_neg hm, if_neg hc]
      exact ih w (earlier ++ [r]) hnd
        (hnext w hnd (fun c => ⟨fun h => ⟨h, fun e => hm (e ▸ h)⟩, fun h => h.1⟩))

theorem collect_perm_codes (w : List String) (rs : List VatRate) (hnd : w.Nodup)
    (hall : ∀ c ∈ w, ∃ r ∈ rs, r.CountryCode = c) :
    ((collect w rs).1.map VatRate.CountryCode).Perm w := by
  induction rs generalizing w with
  | nil =>
    cases w with
    | nil => simp [collect]
    | cons c cs =>
      obtain ⟨r, hr, _⟩ := hall c (by simp)
      simp at hr
  | cons r rest ih =>
    unfold collect
    by_cases hm : r.CountryCode ∈ w
    · rw [if_pos hm]
      have h2 : ∀ c ∈ w.erase r.CountryCode, ∃ x ∈ rest, x.CountryCode = c := by
        intro c hc
        obtain ⟨hne, hcw⟩ := (hnd.mem_erase_iff).1 hc
        obtain ⟨x, hx, hxc⟩ := hall c hcw
        rcases List.mem_cons.1 hx with rfl | hx
        · exact absurd hxc.symm hne
        · exact ⟨x, hx, hxc⟩
      have := ih (w.erase r.CountryCode) (hnd.erase _) h2
      simp only [List.map_cons]
      exact (this.cons _).trans (List.perm_cons_erase hm).symm
    · rw [if_neg hm]
      apply ih w hnd
      intro c hc
      obtain ⟨x, hx, hxc⟩ := hall c hc
      rcases List.mem_cons.1 hx with rfl | hx
      · exact absurd (hxc ▸ hc) hm
      · exact ⟨x, hx, hxc⟩

theorem collect_left_perm_diff (w : List String) (rs : List VatRate) :
    (collect w rs).2.Perm (w.diff ((collect w rs).1.map VatRate.CountryCode)) := by
  induction rs generalizing w with
  | nil => simp [collect]
  | cons r rest ih =>
    unfold collect
    split
    · simpa using ih (w.erase r.CountryCode)
    · exact ih w

theorem collect_subperm (w : List String) (rs : List VatRate) :
    ((collect w rs).1.map VatRate.CountryCode).Subperm w := by
  induction rs generalizing w with
  | nil => simp [collect]
  | cons r rest ih =>
    unfold collect
    split
    · rename_i hm
      simp only [List.map_cons]
      exact ((List.subperm_cons r.CountryCode).2 (ih (w.erase r.CountryCode))).trans
        (List.perm_cons_erase hm).symm.subperm
    · exact ih w

theorem filterLoop_collect (rs : List VatRate) (codes w : List String) (hw : codes.Perm w) :
    (filterLoop rs codes).result = (collect w rs).1 ∧
    (filterLoop rs codes).codes.Perm (collect w rs).2 ∧
    (filterLoop rs codes).len + (collect w rs).1.length = codes.length ∧
    (filterLoop rs codes).backing.length = codes.length ∧
    (filterLoop rs codes).backing.drop (filterLoop rs codes).len
      = ((collect w rs).1.map VatRate.CountryCode).reverse := by
  have h := foldl_loopStep_collect rs
    { result := [], backing := codes, len := codes.length } w (Nat.le_refl _)
    (by simpa [LoopState.codes] using hw)
  simpa [filterLoop] using h

theorem filterLoop_miss (rs : List VatRate) (codes : List String)
    (h : ∀ r ∈ rs, r.CountryCode ∉ codes) :
    filterLoop rs codes = { result := [], backing := codes, len := codes.length } := by
  unfold filterLoop
  exact foldl_loopStep_miss rs _ (by simpa [LoopState.codes] using h)

theorem fetch_rates_eq (client : VatClient) (codes : List String) (rs : List VatRate)
    (hf : client "/" = (rs, none)) :
    (fetchCountriesVat client codes).rates = (filterLoop rs codes).result ∧
    ((fetchCountriesVat client codes).err = none ↔ (filterLoop rs codes).result ≠ []) ∧
    (fetchCountriesVat client codes).callerCodes = (filterLoop rs codes).backing := by
  unfold fetchCountriesVat
  rw [hf]
  simp only []
  by_cases h0 : (filterLoop rs codes).result.length = 0
  · rw [if_pos h0]
    have : (filterLoop rs codes).result = [] := List.length_eq_zero.1 h0
    simp [this]
  · rw [if_neg h0]
    have : (filterLoop rs codes).result ≠ [] := fun h => h0 (by simp [h])
    simp [this]

/-! ## Claims on `fetchCountriesVat` -/

/-- C1 (as amended): for a non-empty list of pairwise distinct requested codes,
each the `CountryCode` of at least one fetched record, `fetchCountriesVat`
returns no error and exactly one record per requested code: as many records as
codes, no two with the same `CountryCode`, their codes a permutation of the
requested ones, and every returned record taken from the fetched list. -/
theorem C1_one_record_per_code (client : VatClient) (records : List VatRate)
    (codes : countriesCodes) (hf : client "/" = (records, none)) (hne : codes ≠ [])
    (hnd : codes.Nodup) (hall : ∀ c ∈ codes, ∃ r ∈ records, r.CountryCode = c) :
    (fetchCountriesVat client codes).err = none ∧
    (fetchCountriesVat client codes).rates.length = codes.length ∧
    ((fetchCountriesVat client codes).rates.map VatRate.CountryCode).Nodup ∧
    ((fetchCountriesVat client codes).rates.map VatRate.CountryCode).Perm codes ∧
    (fetchCountriesVat client codes).rates.Sublist records := by
  obtain ⟨h1, h2, _⟩ := fetch_rates_eq client codes records hf
  obtain ⟨k1, _⟩ := filterLoop_collect records codes codes (List.Perm.refl _)
  have hp := collect_perm_codes codes records hnd hall
  rw [h1, k1]
  refine ⟨?_, ?_, hp.nodup_iff.2 hnd, hp, collect_sublist _ _⟩
  · rw [h2, k1]
    intro h
    rw [h] at hp
    exact hne (List.Perm.nil_eq hp).symm
  · simpa using hp.length_eq

/-- C1, at an instance: three fetched records, two of them for Spain, and the
codes `BG`, `ES` in the order opposite to the records. -/
theorem C1_one_record_per_code_witness :
    (fetchCountriesVat (fakeClient [rES, rBG, rES]) ["BG", "ES"]).err = none ∧
    (fetchCountriesVat (fakeClient [rES, rBG, rES]) ["BG", "ES"]).rates.length
      = ["BG", "ES"].length ∧
    ((fetchCountriesVat (fakeClient [rES, rBG, rES]) ["BG", "ES"]).rates.map
      VatRate.CountryCode).Nodup ∧
    ((fetchCountriesVat (fakeClient [rES, rBG, rES]) ["BG", "ES"]).rates.map
      VatRate.CountryCode).Perm ["BG", "ES"] ∧
    (fetchCountriesVat (fakeClient [rES, rBG, rES]) ["BG", "ES"]).rates.Sublist
      [rES, rBG, rES] :=
  C1_one_record_per_code (fakeClient [rES, rBG, rES]) [rES, rBG, rES] ["BG", "ES"] rfl
    (by decide) (by decide) (by decide)

/-- C1 as first stated fails for the empty list of codes: its codes are pairwise
distinct and each of them (there is none) has a matching record, yet the call
returns an error and no record. -/
theorem C1_counterexample_empty_codes :
    ([] : countriesCodes).Nodup ∧
    (∀ c ∈ ([] : countriesCodes), ∃ r ∈ [rES, rBG], r.CountryCode = c) ∧
    (fakeClient [rES, rBG]) "/" = ([rES, rBG], none) ∧
    (fetchCountriesVat (fakeClient [rES, rBG]) []).err
      = some "countries with codes:  not found" ∧
    (fetchCountriesVat (fakeClient [rES, rBG]) []).err ≠ none := by
  refine ⟨by decide, by decide, rfl, by decide, by decide⟩

/-- C2: when no fetched record has the `CountryCode` of any requested code
(either list may be empty), `fetchCountriesVat` returns the nil record list and
the error whose message is `countries with codes: `, the requested codes in
their original order joined by `,`, and ` not found`. -/
theorem C2_no_match_error (client : VatClient) (records : List VatRate)
    (codes : countriesCodes) (hf : client "/" = (records, none))
    (hno : ∀ r ∈ records, ∀ c ∈ codes, r.CountryCode ≠ c) :
    (fetchCountriesVat client codes).rates = [] ∧
    (fetchCountriesVat client codes).err
      = some ("countries with codes: " ++ Join codes "," ++ " not found") := by
  have hmiss : ∀ r ∈ records, r.CountryCode ∉ codes :=
    fun r hr hc => hno r hr _ hc rfl
  have hl := filterLoop_miss records codes hmiss
  unfold fetchCountriesVat
  rw [hf]
  simp [hl, LoopState.codes, notFoundError]

/-- C2, at the input of `TestVatByCountryNotFound`: the fixture records and the
code `NVM` give the message `countries with codes: NVM not found`. -/
theorem C2_no_match_error_witness :
    (fetchCountriesVat (fakeClient [rES, rBG]) ["NVM"]).rates = [] ∧
    (fetchCountriesVat (fakeClient [rES, rBG]) ["NVM"]).err
      = some "countries with codes: NVM not found" :=
  C2_no_match_error (fakeClient [rES, rBG]) [rES, rBG] ["NVM"] rfl (by decide)

/-- C3: after a successful fetch, `fetchCountriesVat` returns an error exactly
when no record has the `CountryCode` of any requested code.  When some record
matches, there is no error, the result is not empty, every returned record is a
fetched record whose `CountryCode` was requested, and a requested code that
matches no record is the code of no returned record. -/
theorem C3_error_iff_no_match (client : VatClient) (records : List VatRate)
    (codes : countriesCodes) (hf : client "/" = (records, none)) :
    ((fetchCountriesVat client codes).err ≠ none ↔
      ∀ r ∈ records, ∀ c ∈ codes, r.CountryCode ≠ c) ∧
    ((∃ r ∈ records, r.CountryCode ∈ codes) →
      (fetchCountriesVat client codes).err = none ∧
      (fetchCountriesVat client codes).rates ≠ [] ∧
      (∀ r ∈ (fetchCountriesVat client codes).rates, r.CountryCode ∈ codes) ∧
      (fetchCountriesVat client codes).rates.Sublist records ∧
      (∀ c ∈ codes, (∀ r ∈ records, r.CountryCode ≠ c) →
        ∀ r ∈ (fetchCountriesVat client codes).rates, r.CountryCode ≠ c)) := by
  obtain ⟨h1, h2, _⟩ := fetch_rates_eq client codes records hf
  obtain ⟨k1, _⟩ := filterLoop_collect records codes codes (List.Perm.refl _)
  have hnil := collect_eq_nil codes records
  have hsub := collect_sublist codes records
  rw [h1, k1]
  rw [k1] at h2
  constructor
  · rw [Ne, h2, not_not, hnil]
    exact ⟨fun h r hr c hc e => h r hr (e ▸ hc), fun h r hr hc => h r hr _ hc rfl⟩
  · rintro ⟨r, hr, hc⟩
    have hne : (collect codes records).1 ≠ [] := fun h => hnil.1 h r hr hc
    exact ⟨h2.2 hne, hne, collect_mem codes records, hsub,
      fun c _ hcn x hx => hcn x (hsub.subset hx)⟩

/-- C3, at the example of the claim: the codes `ES`, `NVM` against the fixture
records for `ES` and `BG` give exactly the one `ES` record and no error. -/
theorem C3_error_iff_no_match_witness :
    (fakeClient [rES, rBG]) "/" = ([rES, rBG], none) ∧
    (fetchCountriesVat (fakeClient [rES, rBG]) ["ES", "NVM"]).rates = [rES] ∧
    (fetchCountriesVat (fakeClient [rES, rBG]) ["ES", "NVM"]).err = none ∧
    ((fetchCountriesVat (fakeClient [rES, rBG]) ["ES", "NVM"]).err ≠ none ↔
      ∀ r ∈ [rES, rBG], ∀ c ∈ ["ES", "NVM"], r.CountryCode ≠ c) :=
  ⟨rfl, by decide, by decide,
    (C3_error_iff_no_match (fakeClient [rES, rBG]) [rES, rBG] ["ES", "NVM"] rfl).1⟩

/-- C4: for pairwise distinct requested codes the swap-remove loop collects
exactly the first-match filter of the fetched records: in the order of the
record list, the records whose `CountryCode` is requested and occurs in no
earlier record.  The returned list is that same list, it is a subsequence of
the record list, and any reordering of the requested codes gives the same
list. -/
theorem C4_loop_is_first_match_filter (client : VatClient) (records : List VatRate)
    (codes : countriesCodes) (hf : client "/" = (records, none)) (hnd : codes.Nodup) :
    (filterLoop records codes).result = firstMatchFilter codes records ∧
    (fetchCountriesVat client codes).rates = firstMatchFilter codes records ∧
    (filterLoop records codes).result.Sublist records ∧
    (∀ codes2 : countriesCodes, codes2.Perm codes →
      (filterLoop records codes2).result = (filterLoop records codes).result ∧
      (fetchCountriesVat client codes2).rates = (fetchCountriesVat client codes).rates) := by
  obtain ⟨h1, _, _⟩ := fetch_rates_eq client codes records hf
  obtain ⟨k1, _⟩ := filterLoop_collect records codes codes (List.Perm.refl _)
  have hfm : (collect codes records).1 = firstMatchFilter codes records :=
    collect_firstMatch codes codes [] records hnd (fun c => by simp)
  refine ⟨by rw [k1, hfm], by rw [h1, k1, hfm], by rw [k1]; exact collect_sublist _ _, ?_⟩
  intro codes2 hp
  obtain ⟨g1, _, _⟩ := fetch_rates_eq client codes2 records hf
  obtain ⟨m1, _⟩ := filterLoop_collect records codes2 codes hp
  exact ⟨by rw [m1, k1], by rw [g1, h1, m1, k1]⟩

/-- C4, at an instance: records for `ES`, `BG`, `ES` again and a record nobody
asked for, with the codes given as `BG`, `NVM`, `ES`: the loop collects the
first `ES` record and then the `BG` record, in record order. -/
theorem C4_loop_is_first_match_filter_witness :
    (filterLoop [rES, rBG, rES, ⟨"France", "FR", "FR", []⟩] ["BG", "NVM", "ES"]).result
      = [rES, rBG] ∧
    firstMatchFilter ["BG", "NVM", "ES"] [rES, rBG, rES, ⟨"France", "FR", "FR", []⟩]
      = [rES, rBG] ∧
    (filterLoop [rES, rBG, rES, ⟨"France", "FR", "FR", []⟩] ["BG", "NVM", "ES"]).result
      = firstMatchFilter ["BG", "NVM", "ES"] [rES, rBG, rES, ⟨"France", "FR", "FR", []⟩] :=
  ⟨by decide, by decide,
    (C4_loop_is_first_match_filter (fakeClient [rES, rBG, rES, ⟨"France", "FR", "FR", []⟩])
      [rES, rBG, rES, ⟨"France", "FR", "FR", []⟩] ["BG", "NVM", "ES"] rfl (by decide)).1⟩

/-- C10 (as amended): the caller's list of codes keeps its length over a call
of `fetchCountriesVat` and holds the same codes, reordered: with `k` the number
of returned records, its last `k` entries are the matched codes, latest match
first, and the function's own slice, `k` entries shorter, is the part before
them.  After a call that matched nothing, or whose fetch failed, the caller's
list is unchanged. -/
theorem C10_caller_codes_permuted (client : VatClient) (codes : countriesCodes) :
    (fetchCountriesVat client codes).callerCodes.length = codes.length ∧
    (fetchCountriesVat client codes).callerCodes.Perm codes ∧
    (fetchCountriesVat client codes).callerCodes.drop
        (codes.length - (fetchCountriesVat client codes).rates.length)
      = ((fetchCountriesVat client codes).rates.map VatRate.CountryCode).reverse ∧
    ((fetchCountriesVat client codes).rates = [] →
      (fetchCountriesVat client codes).callerCodes = codes) ∧
    ((client "/").2 ≠ none → (fetchCountriesVat client codes).callerCodes = codes) ∧
    (∀ records, client "/" = (records, none) →
      (filterLoop records codes).len + (fetchCountriesVat client codes).rates.length
        = codes.length ∧
      (filterLoop records codes).codes
        = (fetchCountriesVat client codes).callerCodes.take (filterLoop records codes).len) := by
  rcases hc : client "/" with ⟨records, _ | e⟩
  · obtain ⟨h1, _, h3⟩ := fetch_rates_eq client codes records hc
    obtain ⟨k1, k2, k3, k4, k5⟩ := filterLoop_collect records codes codes (List.Perm.refl _)
    have hlen : (filterLoop records codes).len
        = codes.length - (collect codes records).1.length := by omega
    have hsplit := List.take_append_drop (filterLoop records codes).len
      (filterLoop records codes).backing
    have hperm : (filterLoop records codes).backing.Perm codes := by
      rw [← hsplit, k5]
      have hc2 := collect_left_perm_diff codes records
      have hsubp := collect_subperm codes records
      have hk2 : (filterLoop records codes).codes.Perm (collect codes records).2 := k2
      simp only [LoopState.codes] at hk2
      refine ((hk2.trans hc2).append (List.reverse_perm _)).trans ?_
      exact List.perm_append_comm.trans (List.subperm_append_diff_self_of_count_le
        (fun x _ => hsubp.count_le x))
    rw [h1, h3, k1]
    refine ⟨k4, hperm, by rw [← hlen, k5], ?_, ?_, ?_⟩
    · intro hnil
      rw [filterLoop_miss records codes ((collect_eq_nil codes records).1 hnil)]
    · intro h
      simp [hc] at h
    · intro records2 h2
      have hr : records2 = records := by
        have h4 := congrArg Prod.fst h2
        simp only [] at h4
        first
          | exact h4
          | exact h4.symm
      subst hr
      exact ⟨k3, rfl⟩
  · have : fetchCountriesVat client codes
        = { rates := [], err := some e, callerCodes := codes } := by
      unfold fetchCountriesVat
      rw [hc]
    rw [this]
    refine ⟨rfl, List.Perm.refl _, by simp, fun _ => rfl, fun _ => rfl, ?_⟩
    intro records h
    simp [hc] at h

/-- C10, at an instance: the codes `ES`, `NVM`, `BG` against the fixture records
leave the caller with the three codes `NVM`, `BG`, `ES`. -/
theorem C10_caller_codes_permuted_witness :
    (fetchCountriesVat (fakeClient [rES, rBG]) ["ES", "NVM", "BG"]).callerCodes
      = ["NVM", "BG", "ES"] ∧
    (fetchCountriesVat (fakeClient [rES, rBG]) ["ES", "NVM", "BG"]).callerCodes.length
      = ["ES", "NVM", "BG"].length ∧
    (fetchCountriesVat (fakeClient [rES, rBG]) ["ES", "NVM", "BG"]).callerCodes.Perm
      ["ES", "NVM", "BG"] :=
  ⟨by decide,
    (C10_caller_codes_permuted (fakeClient [rES, rBG]) ["ES", "NVM", "BG"]).1,
    (C10_caller_codes_permuted (fakeClient [rES, rBG]) ["ES", "NVM", "BG"]).2.1⟩

/-- C10 as first stated fails: the call with the codes `ES`, `NVM` against the
fixture records matches one code, and the caller's list afterwards still has
two entries, `NVM` and `ES`, not one. -/
theorem C10_counterexample_length_kept :
    (fetchCountriesVat (fakeClient [rES, rBG]) ["ES", "NVM"]).rates.length = 1 ∧
    (fetchCountriesVat (fakeClient [rES, rBG]) ["ES", "NVM"]).callerCodes = ["NVM", "ES"] ∧
    (fetchCountriesVat (fakeClient [rES, rBG]) ["ES", "NVM"]).callerCodes.length
      ≠ ["ES", "NVM"].length - 1 := by
  refine ⟨by decide, by decide, by decide⟩

/-! ## Lemmas on splitting, joining and upper-casing -/

theorem splitComma_ne_nil (l : List Char) : splitComma l ≠ [] := by
  cases l with
  | nil => simp [splitComma]
  | cons c rest =>
    unfold splitComma
    split
    · simp
    · split <;> simp

theorem Join_cons_cons (a b : String) (rest : List String) (sep : String) :
    Join (a :: b :: rest) sep = a ++ sep ++ Join (b :: rest) sep := rfl

theorem Join_splitComma (l : List Char) :
    Join ((splitComma l).map String.mk) "," = String.mk l := by
  induction l with
  | nil => rfl
  | cons c rest ih =>
    unfold splitComma
    by_cases hc : c = ','
    · rw [if_pos hc]
      cases hs : splitComma rest with
      | nil => exact absurd hs (splitComma_ne_nil rest)
      | cons seg segs =>
        rw [hs] at ih
        simp only [List.map_cons] at ih ⊢
        rw [Join_cons_cons, ih, hc]
        rfl
    · rw [if_neg hc]
      cases hs : splitComma rest with
      | nil => exact absurd hs (splitComma_ne_nil rest)
      | cons seg segs =>
        rw [hs] at ih
        simp only [List.map_cons] at ih ⊢
        cases segs with
        | nil =>
          simp only [List.map_nil, Join] at ih ⊢
          have hd : seg = rest := congrArg String.data ih
          rw [hd]
        | cons b more =>
          simp only [List.map_cons] at ih ⊢
          rw [Join_cons_cons] at ih ⊢
          have hd := congrArg String.data ih
          apply String.ext
          simp only [String.data_append] at hd ⊢
          rw [← hd]
          rfl

theorem splitComma_map (f : Char → Char) (hf : ∀ c, f c = ',' ↔ c = ',') (l : List Char) :
    splitComma (l.map f) = (splitComma l).map (List.map f) := by
  induction l with
  | nil => rfl
  | cons c rest ih =>
    simp only [List.map_cons]
    unfold splitComma
    by_cases hc : c = ','
    · rw [if_pos hc, if_pos ((hf c).2 hc), ih]
      simp
    · rw [if_neg hc, if_neg (fun h => hc ((hf c).1 h)), ih]
      cases hs : splitComma rest with
      | nil => exact absurd hs (splitComma_ne_nil rest)
      | cons seg segs => simp

theorem ascii_upper_toNat (r : Char) (h : 97 ≤ r.toNat ∧ r.toNat ≤ 122) :
    (Char.ofNat (r.toNat - 32)).toNat = r.toNat - 32 := by
  obtain ⟨h1, h2⟩ := h
  generalize r.toNat = n at h1 h2
  interval_cases n <;> rfl

theorem char_eq_comma (c : Char) : c = ',' ↔ c.toNat = 44 := by
  constructor
  · intro h
    rw [h]
    rfl
  · intro h
    rw [← Char.ofNat_toNat c, h]

theorem unicodeToUpper_comma (table : Char → Char)
    (h1 : ∀ r : Char, 127 < r.toNat → table r ≠ ',') (c : Char) :
    unicodeToUpper table c = ',' ↔ c = ',' := by
  unfold unicodeToUpper
  by_cases ha : c.toNat ≤ 127
  · rw [if_pos ha]
    by_cases hl : 97 ≤ c.toNat ∧ c.toNat ≤ 122
    · rw [if_pos hl, char_eq_comma, char_eq_comma, ascii_upper_toNat c hl]
      omega
    · rw [if_neg hl]
  · rw [if_neg ha]
    have hc : c ≠ ',' := fun h => by
      rw [char_eq_comma] at h
      omega
    exact ⟨fun h => absurd h (h1 c (by omega)), fun h => absurd h hc⟩

theorem unicodeToUpper_idem (table : Char → Char)
    (h2 : ∀ r : Char, 127 < r.toNat → unicodeToUpper table (table r) = table r) (c : Char) :
    unicodeToUpper table (unicodeToUpper table c) = unicodeToUpper table c := by
  by_cases ha : c.toNat ≤ 127
  · by_cases hl : 97 ≤ c.toNat ∧ c.toNat ≤ 122
    · have e : unicodeToUpper table c = Char.ofNat (c.toNat - 32) := by
        unfold unicodeToUpper
        rw [if_pos ha, if_pos hl]
      have hn := ascii_upper_toNat c hl
      rw [e]
      unfold unicodeToUpper
      rw [if_pos (by omega), if_neg (by omega)]
    · have e : unicodeToUpper table c = c := by
        unfold unicodeToUpper
        rw [if_pos ha, if_neg hl]
      rw [e, e]
  · have e : unicodeToUpper table c = table c := by
      unfold unicodeToUpper
      rw [if_neg ha]
    rw [e]
    exact h2 c (by omega)

/-! ## Claim on the `countries` flag -/

/-- C8: for every string `v`, `Set(v)` returns no error and replaces the
receiver by the comma-separated segments of `v`, each upper-cased, in their
order and with empty segments kept; `String()` after `Set(v)` is the upper-cased
`v`; setting `v` or the upper-cased `v` gives the same list; and
`getCountries` on `-countries=es,de,fr` is `ES`, `DE`, `FR`.  The Unicode case
table for runes above ASCII is a parameter, of which two facts are used: no
rune is upper-cased to a comma, and an upper-cased rune is its own upper
case. -/
theorem C8_set_upper_cased_segments (table : Char → Char)
    (h1 : ∀ r : Char, 127 < r.toNat → table r ≠ ',')
    (h2 : ∀ r : Char, 127 < r.toNat → unicodeToUpper table (table r) = table r)
    (i : countriesCodes) (v : String) :
    (countriesCodes_Set table i v).2 = none ∧
    (countriesCodes_Set table i v).1 = (Split v).map (ToUpper table) ∧
    (countriesCodes_Set table i v).1.length = (Split v).length ∧
    countriesCodes_String (countriesCodes_Set table i v).1 = ToUpper table v ∧
    (countriesCodes_Set table i (ToUpper table v)).1 = (countriesCodes_Set table i v).1 ∧
    getCountries table ["-countries=es,de,fr"] = ["ES", "DE", "FR"] := by
  have hsplit : Split (ToUpper table v) = (Split v).map (ToUpper table) := by
    simp only [Split, ToUpper]
    rw [splitComma_map _ (unicodeToUpper_comma table h1)]
    simp only [List.map_map]
    apply List.map_congr_left
    intro a _
    rfl
  have hidem : ToUpper table (ToUpper table v) = ToUpper table v := by
    simp only [ToUpper, List.map_map]
    congr 1
    apply List.map_congr_left
    intro c _
    exact unicodeToUpper_idem table h2 c
  refine ⟨rfl, hsplit, ?_, ?_, ?_, ?_⟩
  · show (Split (ToUpper table v)).length = _
    rw [hsplit, List.length_map]
  · show Join (Split (ToUpper table v)) "," = _
    unfold Split
    rw [Join_splitComma]
  · show Split (ToUpper table (ToUpper table v)) = Split (ToUpper table v)
    rw [hidem]
  · rfl

/-- C8, at an instance: the identity as the case table above ASCII, and the
value `es,,Fr,` with an empty segment in the middle and one at the end. -/
theorem C8_set_upper_cased_segments_witness :
    (countriesCodes_Set (fun r => r) ["OLD"] "es,,Fr,").2 = none ∧
    (countriesCodes_Set (fun r => r) ["OLD"] "es,,Fr,").1 = ["ES", "", "FR", ""] ∧
    countriesCodes_String (countriesCodes_Set (fun r => r) ["OLD"] "es,,Fr,").1 = "ES,,FR," ∧
    (countriesCodes_Set (fun r => r) ["OLD"] "ES,,FR,").1
      = (countriesCodes_Set (fun r => r) ["OLD"] "es,,Fr,").1 ∧
    getCountries (fun r => r) ["-countries=es,de,fr"] = ["ES", "DE", "FR"] :=
  have h := C8_set_upper_cased_segments (fun r => r)
    (fun r hr hc => by
      have hc2 : r.toNat = 44 := (char_eq_comma r).1 hc
      omega)
    (fun r hr => by
      show unicodeToUpper (fun r => r) r = r
      unfold unicodeToUpper
      rw [if_neg (by omega)])
    ["OLD"] "es,,Fr,"
  ⟨h.1, by decide, by decide, by decide, h.2.2.2.2.2⟩

/-! ## Claims on the HTTP client -/

/-- C5: for every path `url.Parse` accepts, when `Do`, called by `fetch` with
the `GET` request for the URL the path resolves to, returns a response with a
status other than 200 and no error, `Client.fetch` returns the nil record list
and the error `non valid response. Code: ` followed by that status in decimal,
whatever the response body contains: the body is handed back as `Do` returned
it, not read, and the JSON decoder has no part in the result. -/
theorem C5_non_200_status_error (lib : Lib) (client : Client) (urlStr : String)
    (rel url : URL) (resp : Response)
    (hparse : lib.urlParse urlStr = .ok rel)
    (hres : ResolveReference lib client.BaseURL rel = Outcome.ok url)
    (hdo : client.client (lib.newRequest "GET" (lib.urlString url)) = (some resp, none))
    (hcode : resp.StatusCode ≠ 200) :
    Client.fetch lib client urlStr = Outcome.ok
      { rates := []
        err := some ("non valid response. Code: " ++ toString resp.StatusCode)
        body := some resp.Body } ∧
    (∀ decode2 : String → VatRates → VatRates,
      Client.fetch { lib with decode := decode2 } client urlStr
        = Client.fetch lib client urlStr) := by
  have key : ∀ l : Lib, l.urlParse = lib.urlParse → l.resolveRelative = lib.resolveRelative →
      l.resolveAbsolute = lib.resolveAbsolute → l.urlString = lib.urlString →
      l.newRequest = lib.newRequest →
      Client.fetch l client urlStr = Outcome.ok
        { rates := []
          err := some ("non valid response. Code: " ++ toString resp.StatusCode)
          body := some resp.Body } := by
    intro l h1 h2 h3 h4 h5
    have hres2 : ResolveReference l client.BaseURL rel = Outcome.ok url := by
      rw [← hres]
      unfold ResolveReference
      rw [h2, h3]
    unfold Client.fetch
    simp only [h1, hparse, hres2, h4, h5]
    unfold doRequest
    simp only [hdo]
    rw [if_pos hcode]
    rfl
  refine ⟨key lib rfl rfl rfl rfl rfl, fun decode2 => ?_⟩
  rw [key lib rfl rfl rfl rfl rfl]
  exact key { lib with decode := decode2 } rfl rfl rfl rfl rfl

/-- C5, at the input of `TestVatGetHTTPError`: a server that answers the `GET`
request with 500 and the body `server broken :(` gives
`non valid response. Code: 500`; the client used answers 200 to any other
request, so the response is the one to the request `fetch` built. -/
theorem C5_non_200_status_error_witness :
    Client.fetch brokenLib getOnlyBrokenClient "/" = Outcome.ok
      { rates := []
        err := some "non valid response. Code: 500"
        body := some { content := "server broken :(", read := false, closed := false } } :=
  (C5_non_200_status_error brokenLib getOnlyBrokenClient "/"
    { Scheme := "", Host := "", Path := "/", rest := "" }
    { Scheme := "", Host := "", Path := "/", rest := "" }
    brokenResponse rfl rfl rfl (by decide)).1

/-- C9, at the failing input: when `Do` returns an open response body with a
status other than 200, `doRequest` returns the status error and the body is
still not closed when it returns; with status 200 the body is read and
closed. -/
theorem C9_body_left_open_on_non_200 (lib : Lib) (client : Client) (req : Option Request)
    (into : VatRates) (resp : Response) (hdo : client.client req = (some resp, none))
    (hopen : resp.Body.closed = false) :
    (resp.StatusCode ≠ 200 →
      doRequest lib client req into = Outcome.ok
        { err := some (statusError resp.StatusCode), into := into, body := some resp.Body } ∧
      (∃ r b, doRequest lib client req into = Outcome.ok r ∧ r.body = some b ∧
        b.closed = false)) ∧
    (resp.StatusCode = 200 →
      ∃ r b, doRequest lib client req into = Outcome.ok r ∧ r.err = none ∧
        r.body = some b ∧ b.read = true ∧ b.closed = true) := by
  constructor
  · intro hcode
    have h : doRequest lib client req into = Outcome.ok
        { err := some (statusError resp.StatusCode), into := into, body := some resp.Body } := by
      unfold doRequest
      simp only [hdo]
      rw [if_pos hcode]
    exact ⟨h, _, _, h, rfl, hopen⟩
  · intro hcode
    have h : doRequest lib client req into = Outcome.ok
        { err := none, into := lib.decode resp.Body.content into,
          body := some { resp.Body with read := true, closed := true } } := by
      unfold doRequest
      simp only [hdo]
      rw [if_neg (by simp [hcode])]
    exact ⟨_, _, h, rfl, rfl, rfl, rfl⟩

/-- C9, at an instance: a server that answers 500; the body comes back open. -/
theorem C9_body_left_open_on_non_200_witness :
    doRequest brokenLib brokenClient (some { Method := "GET", URL := "/" }) zeroVatRates
    = Outcome.ok
        { err := some (statusError 500), into := zeroVatRates, body := some brokenResponse.Body } ∧
    brokenResponse.Body.closed = false :=
  ⟨((C9_body_left_open_on_non_200 brokenLib brokenClient (some { Method := "GET", URL := "/" })
      zeroVatRates brokenResponse rfl rfl).1 (by decide)).1, rfl⟩

/-! ## Claims on the entry point -/

theorem fprintfNoArgs_plain (l : List Char) (h : '%' ∉ l) :
    fprintfNoArgs false l = some l := by
  induction l with
  | nil => rfl
  | cons c rest ih =>
    have hc : c ≠ '%' := fun e => h (by simp [e])
    have hr : '%' ∉ rest := fun e => h (by simp [e])
    unfold fprintfNoArgs
    rw [if_neg hc, ih hr]
    rfl

/-- The output of `realmain` is the serialized text when that text has no
percent sign. -/
theorem writeRates_plain (lib : Lib) (spRate : List VatRate)
    (h : '%' ∉ (jsonStr lib spRate).data) :
    writeRates lib spRate = some (jsonStr lib spRate) := by
  unfold writeRates Fprintf
  rw [fprintfNoArgs_plain _ h]
  rfl

/-- A run of `realmain` whose base URL is accepted by `url.Parse`, against a
default HTTP client that never returns a nil response with a nil error, returns
with exit code 0 or 1: 1 with nothing on standard output when the
fetch-and-filter pipeline ends in an error, 0 when it yields records. -/
theorem realmain_returns_of_base_url (lib : Lib) (table : Char → Char)
    (serverURL : Option String) (args : List String) (base : URL)
    (hbase : lib.urlParse (getUrl serverURL) = .ok base)
    (hdo : ∀ req, lib.defaultClient req ≠ (none, none)) :
    ∃ r, realmain lib table serverURL args = Outcome.ok r ∧
      ((r.code = 1 ∧ r.stdout = some "") ∨ (r.code = 0 ∧ r.stderr = "")) := by
  have hfetch : ∃ f, Client.fetch lib
      (NewClient lib { baseURL := getUrl serverURL, UserAgent := userAgent, Client := none })
      "/" = Outcome.ok f := by
    unfold Client.fetch NewClient
    simp only [hbase]
    cases hp : lib.urlParse "/" with
    | error e => exact ⟨_, rfl⟩
    | ok rel =>
      simp only []
      have hres : ∃ url, ResolveReference lib (some base) rel = Outcome.ok url := by
        unfold ResolveReference
        split <;> exact ⟨_, rfl⟩
      obtain ⟨url, hurl⟩ := hres
      simp only [hurl]
      have hreq : ∃ q, doRequest lib { client := lib.defaultClient, BaseURL := some base }
          (lib.newRequest "GET" (lib.urlString url)) { Details := "", Version := none, Rates := [] }
          = Outcome.ok q := by
        unfold doRequest
        simp only []
        rcases hd : lib.defaultClient (lib.newRequest "GET" (lib.urlString url))
          with ⟨_ | resp, _ | e⟩
        · exact absurd hd (hdo _)
        · exact ⟨_, rfl⟩
        · simp only []
          split <;> exact ⟨_, rfl⟩
        · exact ⟨_, rfl⟩
      obtain ⟨q, hq⟩ := hreq
      simp only [hq]
      cases q.err <;> exact ⟨_, rfl⟩
  obtain ⟨f, hf⟩ := hfetch
  unfold realmain
  simp only [hf]
  split
  · exact ⟨_, rfl, Or.inl ⟨rfl, rfl⟩⟩
  · exact ⟨_, rfl, Or.inr ⟨rfl, rfl⟩⟩

/-- C6, at the failing input: when `SERVER_URL` holds a text `url.Parse`
rejects, while the path `/` is parsed to a reference without a scheme,
`realmain` does not return 1: it ends in a run-time panic, whatever the
arguments and the server. -/
theorem C6_realmain_panics_on_rejected_base_url (lib : Lib) (table : Char → Char)
    (bad : String) (args : List String) (e : GoError) (root : URL)
    (hbad : lib.urlParse bad = .error e) (hroot : lib.urlParse "/" = .ok root)
    (hscheme : root.Scheme = "") :
    realmain lib table (some bad) args = Outcome.panic := by
  have hfetch : Client.fetch lib
      (NewClient lib { baseURL := getUrl (some bad), UserAgent := userAgent, Client := none })
      "/" = Outcome.panic := by
    unfold Client.fetch NewClient ResolveReference getUrl
    simp only [hbad, hroot, hscheme, if_true]
  unfold realmain
  simp only [hfetch]

/-- C6, at an instance: `SERVER_URL=:1231231`, the text the test
`TestVatInvalidURL` shows `url.Parse` to reject, with `-countries=es` and a
server that would answer 200. -/
theorem C6_realmain_panics_on_rejected_base_url_witness :
    realmain (toyLib 200 "" [rES, rBG]) (fun r => r) (some ":1231231") ["-countries=es"]
      = Outcome.panic :=
  C6_realmain_panics_on_rejected_base_url (toyLib 200 "" [rES, rBG]) (fun r => r)
    ":1231231" ["-countries=es"] "parse \":1231231\": missing protocol scheme"
    { Scheme := "", Host := "", Path := "/", rest := "" } rfl rfl rfl

/-- C7, at the failing input: for the one matched record `rPercent`, whose
serialization is `rPercentJSON`, `realmain` writes `rPercentPrinted`, which is
not the serialization: the percent sign in the name is read as the start of a
verb. -/
theorem C7_percent_read_as_verb (lib : Lib)
    (h : lib.marshalIndentOne rPercent = rPercentJSON) :
    writeRates lib [rPercent] = some rPercentPrinted ∧
    writeRates lib [rPercent] ≠ some rPercentJSON := by
  have hw : writeRates lib [rPercent] = some rPercentPrinted := by
    unfold writeRates jsonStr
    simp only [h]
    decide
  rw [hw]
  exact ⟨rfl, by decide⟩

/-- C7, at an instance: the whole run with a server that sends `rPercent` and
the flag `-countries=es` returns 0 and writes `rPercentPrinted`. -/
theorem C7_percent_read_as_verb_witness :
    realmain (toyLib 200 "" [rPercent, rBG]) (fun r => r) none ["-countries=es"]
      = Outcome.ok { code := 0, stdout := some rPercentPrinted, stderr := "" } ∧
    writeRates (toyLib 200 "" [rPercent, rBG]) [rPercent] = some rPercentPrinted ∧
    writeRates (toyLib 200 "" [rPercent, rBG]) [rPercent] ≠ some rPercentJSON :=
  ⟨by decide, C7_percent_read_as_verb (toyLib 200 "" [rPercent, rBG]) rfl⟩

end Govat
